import Mathlib

/-!
Verification of the data-integrity layer of the dev-events application:
slug derivation, time/date normalization, Event required-field validation,
Booking email validation and referential-integrity enforcement
(`src/database/event.model.js`, `src/database/booking.model.js`).

JavaScript strings are modelled as Lean `String`/`List Char`; the regular
expressions of the source are translated into explicit matching functions;
the JavaScript `Date` engine (used only as a best-effort fallback) is a
parameter of the model, typed so that a successfully parsed date-time always
yields in-range hour/minute fields, as `Date.prototype.getHours/getMinutes`
do.  Character classes are encoded by code-point ranges.
-/

namespace DevEvents

/-- The JavaScript whitespace class: the character set matched by `\s` in a
regular expression, which is also the set stripped by `String.prototype.trim`
(WhiteSpace plus LineTerminator code points). -/
def isJsWs (c : Char) : Bool :=
  let n := c.toNat
  n == 0x9 || n == 0xa || n == 0xb || n == 0xc || n == 0xd || n == 0x20 ||
  n == 0xa0 || n == 0x1680 || (0x2000 ≤ n && n ≤ 0x200a) ||
  n == 0x2028 || n == 0x2029 || n == 0x202f || n == 0x205f || n == 0xfeff

/-- `String.prototype.trim` on the character list: drop JS whitespace from
both ends. -/
def jsTrimChars (l : List Char) : List Char :=
  (l.dropWhile isJsWs).rdropWhile isJsWs

/-- `String.prototype.trim`. -/
def jsTrim (s : String) : String := ⟨jsTrimChars s.data⟩

/-- `String.prototype.toLowerCase`, restricted to the ASCII case mapping
(`Char.toLower`); non-ASCII case mapping differences concern only characters
that every use in this development subsequently discards. -/
def jsLower (s : String) : String := ⟨s.data.map Char.toLower⟩

/-- Decimal value of a digit character. -/
def digitVal (c : Char) : Nat := c.toNat - 48

/-- Value of a non-empty decimal digit string, as `Number` computes it on a
string of digits. -/
def digitsToNat (l : List Char) : Nat :=
  l.foldl (fun a c => a * 10 + digitVal c) 0

/-- `String(n).padStart(2, '0')` for a natural number `n`. -/
def pad2 (n : Nat) : String :=
  if n < 10 then "0" ++ toString n else toString n

/-! ## Slug derivation (`slugify`, src/database/event.model.js lines 7-15) -/

/-- The character class kept by `.replace(/[^a-z0-9\s-]/g, '')`:
lowercase ASCII letters, ASCII digits, JS whitespace, hyphen. -/
def isKeepChar (c : Char) : Bool :=
  let n := c.toNat
  (97 ≤ n && n ≤ 122) || (48 ≤ n && n ≤ 57) || isJsWs c || n == 45

/-- Characters that may appear in a derived slug: lowercase ASCII letters,
ASCII digits, hyphen. -/
def isSlugChar (c : Char) : Bool :=
  let n := c.toNat
  (97 ≤ n && n ≤ 122) || (48 ≤ n && n ≤ 57) || n == 45

/-- Scanner for a global regex replace of every maximal run of characters
satisfying `p` by the single character `r` (as the source's global replaces
of the patterns `\s+` and `-+` by `'-'` do).  The boolean state records
whether the scanner is inside a run. -/
def collapseRunsAux (p : Char → Bool) (r : Char) : Bool → List Char → List Char
  | _, [] => []
  | inRun, c :: rest =>
    if p c then
      if inRun then collapseRunsAux p r true rest
      else r :: collapseRunsAux p r true rest
    else c :: collapseRunsAux p r false rest

/-- Replace every maximal run of characters satisfying `p` by `r`. -/
def collapseRuns (p : Char → Bool) (r : Char) (l : List Char) : List Char :=
  collapseRunsAux p r false l

/-- The hyphen character class of the hyphen-collapsing and edge-stripping
replaces. -/
def isDash (c : Char) : Bool := c == '-'

/-- `.replace(/^-+|-+$/g, '')`: strip leading and trailing hyphen runs. -/
def stripEdgeChars (l : List Char) : List Char :=
  (l.dropWhile isDash).rdropWhile isDash

/-- `slugify` on the character list, following the source chain:
`toLowerCase`, `trim`, strip `[^a-z0-9\s-]`, `\s+` to `-`, `-+` to `-`,
strip edge hyphens. -/
def slugifyChars (l : List Char) : List Char :=
  stripEdgeChars (collapseRuns isDash '-'
    (collapseRuns isJsWs '-' ((jsTrimChars (l.map Char.toLower)).filter isKeepChar)))

/-- `slugify` (src/database/event.model.js lines 7-15). -/
def slugify (s : String) : String := ⟨slugifyChars s.data⟩

/-- Replacement of each whitespace or hyphen run, written as the
specification describes it: a run element followed by another run element is
dropped, the last element of a run becomes the replacement character.
Used only to restate the spec's algorithm; the source's scanner is
`collapseRuns`. -/
def specCollapseRuns (p : Char → Bool) (r : Char) : List Char → List Char
  | [] => []
  | [c] => if p c then [r] else [c]
  | a :: b :: rest =>
    if p a then
      if p b then specCollapseRuns p r (b :: rest)
      else r :: specCollapseRuns p r (b :: rest)
    else a :: specCollapseRuns p r (b :: rest)

/-- The slug algorithm exactly as the specification words it: lowercase the
title, trim whitespace, strip every character that is not a lowercase
letter, digit, whitespace, or hyphen, collapse each run of whitespace into a
single hyphen, collapse runs of hyphens into one, and strip leading and
trailing hyphens. -/
def slugifySpec (s : String) : String :=
  ⟨stripEdgeChars (specCollapseRuns isDash '-'
    (specCollapseRuns isJsWs '-'
      ((jsTrimChars (s.data.map Char.toLower)).filter isKeepChar)))⟩

/-! ## Time normalization (`normalizeTime`, src/database/event.model.js
lines 18-48) -/

/-- Matcher for the anchored pattern `(\d{1,2}):(\d{2})` over the whole
string: one or two digits, a colon, exactly two digits.  Returns the two
captured numbers. -/
def matchHHMM (l : List Char) : Option (Nat × Nat) :=
  let d1 := l.takeWhile Char.isDigit
  let rest := l.dropWhile Char.isDigit
  if d1.length = 1 || d1.length = 2 then
    match rest with
    | ':' :: r =>
      let d2 := r.takeWhile Char.isDigit
      let r2 := r.dropWhile Char.isDigit
      if d2.length = 2 && r2.isEmpty then some (digitsToNat d1, digitsToNat d2)
      else none
    | _ => none
  else none

/-- Matcher for the tail `\s*(am|pm)` (case-insensitive, anchored at the
end): optional whitespace then `am` or `pm`.  Returns whether the suffix is
`pm`. -/
def tailAmPm (l : List Char) : Option Bool :=
  match (l.dropWhile isJsWs).map Char.toLower with
  | ['a', 'm'] => some false
  | ['p', 'm'] => some true
  | _ => none

/-- Matcher for the anchored pattern `(\d{1,2})(?::(\d{2}))?\s*(am|pm)`
(case-insensitive): one or two digits, optionally a colon and exactly two
digits, optional whitespace, then am/pm.  Returns hour digits value, minute
digits value (0 when the minute group is absent, as `Number(m || 0)`
computes), and whether the suffix is `pm`. -/
def matchAmPm (l : List Char) : Option (Nat × Nat × Bool) :=
  let d1 := l.takeWhile Char.isDigit
  let rest := l.dropWhile Char.isDigit
  if d1.length = 1 || d1.length = 2 then
    match rest with
    | ':' :: r =>
      let d2 := r.takeWhile Char.isDigit
      let r2 := r.dropWhile Char.isDigit
      if d2.length = 2 then
        (tailAmPm r2).map fun pm => (digitsToNat d1, digitsToNat d2, pm)
      else none
    | _ => (tailAmPm rest).map fun pm => (digitsToNat d1, 0, pm)
  else none

/-- Rendering of an hour/minute pair as the source renders it:
each component via `String(n).padStart(2, '0')`, joined by a colon. -/
def timeRender (h m : Nat) : String := pad2 h ++ ":" ++ pad2 m

/-- The JavaScript date-time engine used by the source's fallback branch
(`Date.parse` followed by `getHours`/`getMinutes`).  It is a parameter of
the model; a successfully parsed date-time always yields an hour in [0,23]
and a minute in [0,59], which the `Fin` result type records. -/
def DateTimeParser : Type := String → Option (Fin 24 × Fin 60)

/-- The am/pm hour rule of the source: hour 12 maps to 0 (am) or stays 12
(pm); every other hour value gains 12 for pm. -/
def amPmHour (h0 : Nat) (isPm : Bool) : Nat :=
  if h0 = 12 then (if isPm then 12 else 0)
  else (if isPm then h0 + 12 else h0)

/-- Last stage of `normalizeTime`: the `Date.parse` fallback, returning the
trimmed input itself when nothing parses. -/
def normalizeTimeFallback (parse : DateTimeParser) (v : String) : String :=
  match parse v with
  | some (hh, mm) => timeRender hh.val mm.val
  | none => v

/-- Middle stage of `normalizeTime`: the am/pm pattern, rendered with no
range check on the captured values, falling through to the date-time
fallback. -/
def normalizeTimeAmPm (parse : DateTimeParser) (v : String) : String :=
  match matchAmPm v.data with
  | some (h0, m, isPm) => timeRender (amPmHour h0 isPm) m
  | none => normalizeTimeFallback parse v

/-- `normalizeTime` on the trimmed string: the strict 24-hour pattern with
its range check returns immediately; everything else falls through to the
am/pm stage. -/
def normalizeTimeCore (parse : DateTimeParser) (v : String) : String :=
  match matchHHMM v.data with
  | some (h, m) =>
    if h < 24 && m < 60 then timeRender h m else normalizeTimeAmPm parse v
  | none => normalizeTimeAmPm parse v

/-- `normalizeTime` on a non-empty string input (src/database/event.model.js
lines 18-48, after the falsy/typeof guard): trim, try the strict 24-hour
pattern with range check, then the am/pm pattern (no range check in the
source), then the date-time fallback; if nothing applies return the trimmed
string. -/
def normalizeTimeStr (parse : DateTimeParser) (value : String) : String :=
  if value = "" then value else normalizeTimeCore parse (jsTrim value)

/-- A JavaScript value at the public interface of `normalizeTime`. -/
inductive JsValue where
  | vStr : String → JsValue
  | vNum : Int → JsValue
  | vBool : Bool → JsValue
  | vNull : JsValue
  | vUndefined : JsValue
deriving DecidableEq

/-- `normalizeTime` at its public interface: the guard
`if (!value || typeof value !== 'string') return value;` returns any
non-string, and any falsy string (the empty string), unchanged. -/
def normalizeTime (parse : DateTimeParser) : JsValue → JsValue
  | .vStr s => .vStr (normalizeTimeStr parse s)
  | v => v

/-- The three input grammars of the specification, on an input string:
strict 24-hour `H:MM`/`HH:MM` with in-range fields, the am/pm pattern, or
a date-time string the fallback engine accepts.  (Matching is performed on
the trimmed string, as in the source.) -/
def acceptsTimeGrammar (parse : DateTimeParser) (value : String) : Prop :=
  (∃ h m, matchHHMM (jsTrim value).data = some (h, m) ∧ h < 24 ∧ m < 60) ∨
  (∃ r, matchAmPm (jsTrim value).data = some r) ∨
  (∃ t, parse (jsTrim value) = some t)

/-- A canonical zero-padded 24-hour rendering: exactly `HH:MM` with the
hour below 24 and the minute below 60. -/
def isCanonicalHHMM (s : String) : Bool :=
  match s.data with
  | [a, b, c, d, e] =>
    a.isDigit && b.isDigit && c == ':' && d.isDigit && e.isDigit &&
    decide (digitVal a * 10 + digitVal b < 24) &&
    decide (digitVal d * 10 + digitVal e < 60)
  | _ => false

/-! ## Booking email validation (src/database/booking.model.js lines 9-20) -/

/-- The atom character class of the email regular expression: the negated
class excluding angle brackets, parentheses, square brackets, backslash,
dot, comma, semicolon, colon, JS whitespace, at-sign, and double quote. -/
def emailAtomChar (c : Char) : Bool :=
  !(c == '<' || c == '>' || c == '(' || c == ')' || c == '[' || c == ']' ||
    c == '\\' || c == '.' || c == ',' || c == ';' || c == ':' ||
    isJsWs c || c == '@' || c == '"')

/-- A JavaScript line terminator, the only characters `.` does not match in
a regular expression without the dot-all flag. -/
def isLineTerm (c : Char) : Bool :=
  c == '\n' || c == '\r' || c.toNat == 0x2028 || c.toNat == 0x2029

/-- Split a character list at every occurrence of the separator. -/
def splitOnChar (sep : Char) : List Char → List (List Char)
  | [] => [[]]
  | c :: rest =>
    match splitOnChar sep rest with
    | [] => [[]]
    | s :: ss => if c == sep then [] :: s :: ss else (c :: s) :: ss

/-- The quoted local-part alternative `".+"`: an opening quote, at least one
character that is not a line terminator, a closing quote. -/
def quotedLocalOk (l : List Char) : Bool :=
  match l with
  | '"' :: rest =>
    2 ≤ rest.length && rest.getLastD ' ' == '"' && rest.dropLast.all (!isLineTerm ·)
  | _ => false

/-- The unquoted local-part alternative: one or more atom runs separated by
single dots (the atom class excludes the dot, so this is exactly: every
dot-separated segment is a non-empty atom string). -/
def unquotedLocalOk (l : List Char) : Bool :=
  (splitOnChar '.' l).all fun s => !s.isEmpty && s.all emailAtomChar

/-- The local-part of the email grammar: quoted or unquoted. -/
def localOk (l : List Char) : Bool := quotedLocalOk l || unquotedLocalOk l

/-- The domain of the email grammar: one or more dot-terminated non-empty
atom labels followed by a top-level label of at least two atom characters —
equivalently, at least two dot-separated segments, all leading ones
non-empty atom strings, the last one an atom string of length at least 2. -/
def domainOk (l : List Char) : Bool :=
  let segs := splitOnChar '.' l
  2 ≤ segs.length &&
  segs.dropLast.all (fun s => !s.isEmpty && s.all emailAtomChar) &&
  (let t := segs.getLastD []
   2 ≤ t.length && t.all emailAtomChar)

/-- Existence of a match of the anchored email pattern: some occurrence of
`@` splits the string into a valid local-part and a valid domain.  The
accumulator holds the characters already passed, in reverse. -/
def emailTestAux (acc : List Char) : List Char → Bool
  | [] => false
  | c :: rest =>
    (c == '@' && localOk acc.reverse && domainOk rest) ||
    emailTestAux (c :: acc) rest

/-- `test` of the email regular expression of the Booking schema on a whole
string.  (The `i` flag is immaterial: the pattern contains no letters.) -/
def emailRegexTest (s : String) : Bool := emailTestAux [] s.data

/-- The stored form of a Booking email: the schema's `trim` and `lowercase`
setters applied to the raw input. -/
def bookingStoreEmail (raw : String) : String := jsLower (jsTrim raw)

/-- Booking email path: apply the setters, then the validator; on mismatch
the write fails with the message naming the offending value. -/
def validateBookingEmail (raw : String) : Except String String :=
  if emailRegexTest (bookingStoreEmail raw) then .ok (bookingStoreEmail raw)
  else .error (bookingStoreEmail raw ++ " is not a valid email")

/-! ## Event document and its pre-save hook
(src/database/event.model.js lines 50-126) -/

/-- An Event document: the string fields of the schema plus the two string
arrays. -/
structure EventDoc where
  title : String
  slug : String
  description : String
  overview : String
  image : String
  venue : String
  location : String
  date : String
  time : String
  mode : String
  audience : String
  organizer : String
  agenda : List String
  tags : List String
deriving DecidableEq

/-- A calendar date as the JavaScript engine reports it for a successfully
parsed date string (the UTC date components used by `toISOString`). -/
structure IsoDate where
  year : Nat
  month : Nat
  day : Nat
deriving DecidableEq

/-- `String(n).padStart(4, '0')`. -/
def pad4 (n : Nat) : String :=
  if n < 10 then "000" ++ toString n
  else if n < 100 then "00" ++ toString n
  else if n < 1000 then "0" ++ toString n
  else toString n

/-- The date part of `toISOString()` — `toISOString().split('T')[0]` — for
years in 0-9999: zero-padded `YYYY-MM-DD`. -/
def formatIsoDate (d : IsoDate) : String :=
  pad4 d.year ++ "-" ++ pad2 d.month ++ "-" ++ pad2 d.day

/-- The JavaScript date engine used by the Event hook's date normalization
(`new Date(s)` followed by `toISOString`): a parameter of the model mapping
a string to the ISO calendar date it denotes, or `none` when the string
does not parse (`getTime()` is NaN). -/
def DateParser : Type := String → Option IsoDate

/-- The source order of the required string fields of the Event schema, each
with its accessor (src/database/event.model.js lines 98-110). -/
def requiredStringFields : List (String × (EventDoc → String)) :=
  [("title", EventDoc.title), ("description", EventDoc.description),
   ("overview", EventDoc.overview), ("image", EventDoc.image),
   ("venue", EventDoc.venue), ("location", EventDoc.location),
   ("date", EventDoc.date), ("time", EventDoc.time),
   ("mode", EventDoc.mode), ("audience", EventDoc.audience),
   ("organizer", EventDoc.organizer)]

/-- The validation part of the Event pre-save hook
(src/database/event.model.js lines 98-123): the first required string field
that is empty or blank after trimming fails the write naming the field;
then `agenda` and `tags` must be non-empty arrays.  (In this model the two
array fields always are arrays, so only emptiness can fail.) -/
def validateEventDoc (doc : EventDoc) : Except String Unit :=
  match requiredStringFields.find? (fun p => jsTrim (p.2 doc) == "") with
  | some p => .error (p.1 ++ " is required and cannot be empty")
  | none =>
    if doc.agenda.length = 0 then
      .error "agenda must be a non-empty array of strings"
    else if doc.tags.length = 0 then
      .error "tags must be a non-empty array of strings"
    else .ok ()

/-- First block of the Event pre-save hook (lines 77-79): recompute the
slug only when the title changed or the slug is absent (falsy, i.e.
empty). -/
def slugStep (modified : List String) (doc : EventDoc) : EventDoc :=
  if modified.contains "title" || doc.slug == "" then
    { doc with slug := slugify doc.title }
  else doc

/-- Second block of the Event pre-save hook (lines 82-91): rewrite a
modified non-empty date to ISO form when the engine parses it, else leave
it exactly as given.  (`new Date` never throws, so the catch arm of the
source is dead.) -/
def dateStep (pd : DateParser) (modified : List String)
    (doc : EventDoc) : EventDoc :=
  if modified.contains "date" && !(doc.date == "") then
    match pd doc.date with
    | some iso => { doc with date := formatIsoDate iso }
    | none => doc
  else doc

/-- Third block of the Event pre-save hook (lines 94-96): normalize a
modified non-empty time. -/
def timeStep (pt : DateTimeParser) (modified : List String)
    (doc : EventDoc) : EventDoc :=
  if modified.contains "time" && !(doc.time == "") then
    { doc with time := normalizeTimeStr pt doc.time }
  else doc

/-- The normalization part of the Event pre-save hook
(src/database/event.model.js lines 75-96), given the list of modified field
names: the three blocks in source order. -/
def normalizeEventDoc (pd : DateParser) (pt : DateTimeParser)
    (modified : List String) (doc : EventDoc) : EventDoc :=
  timeStep pt modified (dateStep pd modified (slugStep modified doc))

/-- The whole Event pre-save hook: normalize, then validate; on success the
normalized document is the one handed to the durable write. -/
def eventPreSave (pd : DateParser) (pt : DateTimeParser)
    (modified : List String) (doc : EventDoc) : Except String EventDoc :=
  (validateEventDoc (normalizeEventDoc pd pt modified doc)).map
    fun _ => normalizeEventDoc pd pt modified doc

/-! ## Booking document and its pre-save hook
(src/database/booking.model.js lines 6-46) -/

/-- A Booking document: the referenced Event identifier (absent when the
field is unset) and the stored email. -/
structure BookingDoc where
  eventId : Option Nat
  email : String
deriving DecidableEq

/-- The persistence environment the Booking hook consults: whether the
Event model is registered on the connection, and the identifiers of the
Events that exist at the moment of the check. -/
structure DbState where
  eventModelRegistered : Bool
  events : List Nat
deriving DecidableEq

/-- The Booking pre-save hook (src/database/booking.model.js lines 32-46):
missing eventId, unregistered Event model, and non-existent referenced
Event each fail with their own error; otherwise the save proceeds. -/
def bookingPreSave (db : DbState) (b : BookingDoc) : Except String Unit :=
  match b.eventId with
  | none => .error "eventId is required"
  | some eid =>
    if !db.eventModelRegistered then .error "Event model is not registered"
    else if !(db.events.contains eid) then
      .error "Referenced eventId does not exist"
    else .ok ()

/-- Whether a Booking save reaches the durable write: exactly when the
pre-save hook calls `next()` with no error. -/
def bookingCommits (db : DbState) (b : BookingDoc) : Bool :=
  (bookingPreSave db b).toBool

/-! ## Theorems -/

/-- An accepted Event write returns exactly the normalized document, and
that document passes validation. -/
theorem eventPreSave_ok_iff {pd : DateParser} {pt : DateTimeParser}
    {modified : List String} {doc d : EventDoc}
    (h : eventPreSave pd pt modified doc = .ok d) :
    d = normalizeEventDoc pd pt modified doc ∧
    validateEventDoc (normalizeEventDoc pd pt modified doc) = .ok () := by
  unfold eventPreSave at h
  cases hv : validateEventDoc (normalizeEventDoc pd pt modified doc) with
  | ok u => rw [hv] at h; simp [Except.map] at h; exact ⟨h.symm, by cases u; rfl⟩
  | error e => rw [hv] at h; simp [Except.map] at h

/-- A rejected Event write carries exactly the validation error of the
normalized document. -/
theorem eventPreSave_error_iff {pd : DateParser} {pt : DateTimeParser}
    {modified : List String} {doc : EventDoc} {e : String}
    (h : eventPreSave pd pt modified doc = .error e) :
    validateEventDoc (normalizeEventDoc pd pt modified doc) = .error e := by
  unfold eventPreSave at h
  cases hv : validateEventDoc (normalizeEventDoc pd pt modified doc) with
  | ok u => rw [hv] at h; simp [Except.map] at h
  | error e' => rw [hv] at h; simp [Except.map] at h; rw [h]

/-- The date block never changes the slug. -/
theorem dateStep_slug (pd : DateParser) (modified : List String)
    (doc : EventDoc) : (dateStep pd modified doc).slug = doc.slug := by
  unfold dateStep
  split
  · split <;> rfl
  · rfl

/-- The time block never changes the slug. -/
theorem timeStep_slug (pt : DateTimeParser) (modified : List String)
    (doc : EventDoc) : (timeStep pt modified doc).slug = doc.slug := by
  unfold timeStep
  split <;> rfl

/-- When the title is unmodified and the slug non-empty, the slug block is
the identity. -/
theorem slugStep_frame {modified : List String} {doc : EventDoc}
    (hmod : modified.contains "title" = false) (hslug : doc.slug ≠ "") :
    slugStep modified doc = doc := by
  have hbeq : (doc.slug == "") = false := by simp [hslug]
  unfold slugStep
  rw [hmod, hbeq]
  rfl

/-- When the title is unmodified and the slug non-empty, normalization does
not touch the slug. -/
theorem normalizeEventDoc_slug_frame {pd : DateParser} {pt : DateTimeParser}
    {modified : List String} {doc : EventDoc}
    (hmod : modified.contains "title" = false) (hslug : doc.slug ≠ "") :
    (normalizeEventDoc pd pt modified doc).slug = doc.slug := by
  unfold normalizeEventDoc
  rw [slugStep_frame hmod hslug, timeStep_slug, dateStep_slug]

/-- C4: for every Event update in which the title field is not among the
changed fields and a slug is already present, the pre-write normalization
leaves the existing slug unchanged; in particular an update that changes
only the date does not alter the slug. -/
theorem event_slug_sticky (pd : DateParser) (pt : DateTimeParser)
    (modified : List String) (doc d : EventDoc)
    (hmod : modified.contains "title" = false) (hslug : doc.slug ≠ "")
    (hok : eventPreSave pd pt modified doc = .ok d) :
    d.slug = doc.slug := by
  obtain ⟨rfl, -⟩ := eventPreSave_ok_iff hok
  exact normalizeEventDoc_slug_frame hmod hslug

/-- A concrete date-only update that keeps its slug: the claim of C4
exercised on an explicit document. -/
theorem event_slug_sticky_witness :
    (["date"] : List String).contains "title" = false ∧
    ("old-slug" : String) ≠ "" ∧
    eventPreSave (fun _ => some ⟨2026, 1, 1⟩) (fun _ => none) ["date"]
        { title := "T", slug := "old-slug", description := "d",
          overview := "o", image := "i", venue := "v", location := "l",
          date := "June 1", time := "09:00", mode := "m", audience := "a",
          organizer := "org", agenda := ["x"], tags := ["t"] } =
      .ok { title := "T", slug := "old-slug", description := "d",
            overview := "o", image := "i", venue := "v", location := "l",
            date := "2026-01-01", time := "09:00", mode := "m",
            audience := "a", organizer := "org", agenda := ["x"],
            tags := ["t"] } ∧
    ({ title := "T", slug := "old-slug", description := "d",
       overview := "o", image := "i", venue := "v", location := "l",
       date := "2026-01-01", time := "09:00", mode := "m",
       audience := "a", organizer := "org", agenda := ["x"],
       tags := ["t"] } : EventDoc).slug =
      ({ title := "T", slug := "old-slug", description := "d",
         overview := "o", image := "i", venue := "v", location := "l",
         date := "June 1", time := "09:00", mode := "m", audience := "a",
         organizer := "org", agenda := ["x"], tags := ["t"] } :
        EventDoc).slug := by
  refine ⟨rfl, by decide, rfl, ?_⟩
  exact event_slug_sticky (fun _ => some ⟨2026, 1, 1⟩) (fun _ => none)
    ["date"] _ _ rfl (by decide) rfl

/-- C1: for every candidate Booking write, the pre-write check fails with a
distinct error in each of three cases and no durable write occurs: missing
eventId gives the missing-reference error, an uninitialized Event model
gives a configuration error, a non-existent referenced Event gives
"Referenced eventId does not exist"; the three messages are pairwise
distinct. -/
theorem booking_presave_three_failures (db : DbState) (b : BookingDoc) :
    (b.eventId = none →
      bookingPreSave db b = .error "eventId is required" ∧
      bookingCommits db b = false) ∧
    (∀ eid, b.eventId = some eid → db.eventModelRegistered = false →
      bookingPreSave db b = .error "Event model is not registered" ∧
      bookingCommits db b = false) ∧
    (∀ eid, b.eventId = some eid → db.eventModelRegistered = true →
      db.events.contains eid = false →
      bookingPreSave db b = .error "Referenced eventId does not exist" ∧
      bookingCommits db b = false) ∧
    (("eventId is required" : String) ≠ "Event model is not registered" ∧
     ("eventId is required" : String) ≠ "Referenced eventId does not exist" ∧
     ("Event model is not registered" : String) ≠
       "Referenced eventId does not exist") := by
  refine ⟨?_, ?_, ?_, by decide, by decide, by decide⟩
  · intro h
    unfold bookingCommits bookingPreSave
    rw [h]
    exact ⟨rfl, rfl⟩
  · intro eid h hreg
    unfold bookingCommits bookingPreSave
    rw [h, hreg]
    exact ⟨rfl, rfl⟩
  · intro eid h hreg hex
    unfold bookingCommits bookingPreSave
    rw [h]
    have hmem : eid ∉ db.events := by simpa using hex
    simp [hreg, hmem, Except.toBool]

/-- The three failure branches of the Booking pre-write check exercised on
concrete inputs. -/
theorem booking_presave_three_failures_witness :
    (bookingPreSave ⟨true, [7]⟩ ⟨none, "a@b.co"⟩ =
       .error "eventId is required" ∧
     bookingCommits ⟨true, [7]⟩ ⟨none, "a@b.co"⟩ = false) ∧
    (bookingPreSave ⟨false, [7]⟩ ⟨some 7, "a@b.co"⟩ =
       .error "Event model is not registered" ∧
     bookingCommits ⟨false, [7]⟩ ⟨some 7, "a@b.co"⟩ = false) ∧
    (bookingPreSave ⟨true, [7]⟩ ⟨some 9, "a@b.co"⟩ =
       .error "Referenced eventId does not exist" ∧
     bookingCommits ⟨true, [7]⟩ ⟨some 9, "a@b.co"⟩ = false) :=
  ⟨(booking_presave_three_failures ⟨true, [7]⟩ ⟨none, "a@b.co"⟩).1 rfl,
   (booking_presave_three_failures ⟨false, [7]⟩ ⟨some 7, "a@b.co"⟩).2.1
     7 rfl rfl,
   (booking_presave_three_failures ⟨true, [7]⟩ ⟨some 9, "a@b.co"⟩).2.2.1
     9 rfl rfl (by decide)⟩

/-- C10: time normalization is total at its public interface: every
non-string input, and the empty (falsy) string, is returned unchanged with
no parsing attempted. -/
theorem normalizeTime_total_interface (parse : DateTimeParser)
    (v : JsValue) (h : (∀ s, v ≠ JsValue.vStr s) ∨ v = JsValue.vStr "") :
    normalizeTime parse v = v := by
  cases v with
  | vStr s =>
    rcases h with h | h
    · exact absurd rfl (h s)
    · cases h
      rfl
  | vNum n => rfl
  | vBool b => rfl
  | vNull => rfl
  | vUndefined => rfl

/-- The guard of `normalizeTime` exercised on a number, `null`, `undefined`
and the empty string. -/
theorem normalizeTime_total_interface_witness :
    normalizeTime (fun _ => none) (.vNum 3) = .vNum 3 ∧
    normalizeTime (fun _ => none) .vNull = .vNull ∧
    normalizeTime (fun _ => none) .vUndefined = .vUndefined ∧
    normalizeTime (fun _ => none) (.vStr "") = .vStr "" :=
  ⟨normalizeTime_total_interface _ _ (.inl fun s h => by cases h),
   normalizeTime_total_interface _ _ (.inl fun s h => by cases h),
   normalizeTime_total_interface _ _ (.inl fun s h => by cases h),
   normalizeTime_total_interface _ _ (.inr rfl)⟩

/-- C5: time normalization maps "9:00 AM", "09:00" and "21:00" to "09:00",
"09:00" and "21:00", and returns "25:00" unchanged: its hour fails the
24-hour range check, the am/pm pattern does not match, and the date-time
fallback (which rejects "25:00", as the hypothesis records) does not
apply. -/
theorem normalizeTime_examples (parse : DateTimeParser)
    (h25 : parse "25:00" = none) :
    normalizeTimeStr parse "9:00 AM" = "09:00" ∧
    normalizeTimeStr parse "09:00" = "09:00" ∧
    normalizeTimeStr parse "21:00" = "21:00" ∧
    normalizeTimeStr parse "25:00" = "25:00" := by
  refine ⟨rfl, rfl, rfl, ?_⟩
  have hstep : normalizeTimeStr parse "25:00" =
      match parse "25:00" with
      | some (hh, mm) => timeRender hh.val mm.val
      | none => "25:00" := rfl
  rw [hstep, h25]

/-- The time-normalization examples with a concrete fallback engine that
rejects "25:00". -/
theorem normalizeTime_examples_witness :
    normalizeTimeStr (fun _ => none) "9:00 AM" = "09:00" ∧
    normalizeTimeStr (fun _ => none) "09:00" = "09:00" ∧
    normalizeTimeStr (fun _ => none) "21:00" = "21:00" ∧
    normalizeTimeStr (fun _ => none) "25:00" = "25:00" :=
  normalizeTime_examples (fun _ => none) rfl

/-- C6: the Event validation rejects, naming the offending field, whenever
one of the eleven required string fields is blank after trimming; with all
of them non-blank an empty agenda fails with the non-empty-array error and
an empty tags array likewise; the same document with a non-empty agenda and
non-empty tags passes the check. -/
theorem event_validation_required_fields (doc : EventDoc) :
    (∀ p ∈ requiredStringFields, jsTrim (p.2 doc) = "" →
      ∃ q ∈ requiredStringFields, jsTrim (q.2 doc) = "" ∧
        validateEventDoc doc =
          .error (q.1 ++ " is required and cannot be empty")) ∧
    ((∀ p ∈ requiredStringFields, jsTrim (p.2 doc) ≠ "") →
      doc.agenda = [] →
      validateEventDoc doc =
        .error "agenda must be a non-empty array of strings") ∧
    ((∀ p ∈ requiredStringFields, jsTrim (p.2 doc) ≠ "") →
      doc.agenda ≠ [] → doc.tags = [] →
      validateEventDoc doc =
        .error "tags must be a non-empty array of strings") ∧
    ((∀ p ∈ requiredStringFields, jsTrim (p.2 doc) ≠ "") →
      doc.agenda ≠ [] → doc.tags ≠ [] →
      validateEventDoc doc = .ok ()) := by
  refine ⟨?_, ?_, ?_, ?_⟩
  · intro p hp hblank
    cases hf : requiredStringFields.find? (fun q => jsTrim (q.2 doc) == "") with
    | some q =>
      refine ⟨q, List.mem_of_find?_eq_some hf, ?_, ?_⟩
      · have := List.find?_some hf
        simpa using this
      · unfold validateEventDoc
        rw [hf]
    | none =>
      exfalso
      have := List.find?_eq_none.mp hf p hp
      simp [hblank] at this
  · intro hall hagenda
    have hf : requiredStringFields.find? (fun q => jsTrim (q.2 doc) == "") =
        none := by
      apply List.find?_eq_none.mpr
      intro q hq
      simpa using hall q hq
    unfold validateEventDoc
    rw [hf, hagenda]
    rfl
  · intro hall hagenda htags
    have hf : requiredStringFields.find? (fun q => jsTrim (q.2 doc) == "") =
        none := by
      apply List.find?_eq_none.mpr
      intro q hq
      simpa using hall q hq
    unfold validateEventDoc
    rw [hf]
    have ha : doc.agenda.length ≠ 0 := by simpa using hagenda
    have ht : doc.tags.length = 0 := by simpa using htags
    simp [ha, ht]
  · intro hall hagenda htags
    have hf : requiredStringFields.find? (fun q => jsTrim (q.2 doc) == "") =
        none := by
      apply List.find?_eq_none.mpr
      intro q hq
      simpa using hall q hq
    unfold validateEventDoc
    rw [hf]
    have ha : doc.agenda.length ≠ 0 := by simpa using hagenda
    have ht : doc.tags.length ≠ 0 := by simpa using htags
    simp [ha, ht]

/-- The agenda clause of C6 exercised on a concrete document: empty agenda
fails with the non-empty-array error, one agenda item (tags non-empty)
passes. -/
theorem event_validation_required_fields_witness :
    validateEventDoc
      { title := "T", slug := "t", description := "d", overview := "o",
        image := "i", venue := "v", location := "l", date := "2026-01-01",
        time := "09:00", mode := "m", audience := "a", organizer := "g",
        agenda := [], tags := ["t"] } =
      .error "agenda must be a non-empty array of strings" ∧
    validateEventDoc
      { title := "T", slug := "t", description := "d", overview := "o",
        image := "i", venue := "v", location := "l", date := "2026-01-01",
        time := "09:00", mode := "m", audience := "a", organizer := "g",
        agenda := ["intro"], tags := ["t"] } = .ok () ∧
    validateEventDoc
      { title := "T", slug := "t", description := "d", overview := "o",
        image := "i", venue := "v", location := "l", date := "2026-01-01",
        time := "  ", mode := "m", audience := "a", organizer := "g",
        agenda := ["intro"], tags := ["t"] } =
      .error "time is required and cannot be empty" :=
  ⟨(event_validation_required_fields _).2.1 (by decide) rfl,
   (event_validation_required_fields _).2.2.2 (by decide) (by decide)
     (by decide),
   by rfl⟩

/-- C9: a modified non-empty date is rewritten to the canonical
year-month-day rendering exactly when the engine parses it, is left exactly
as given when it does not, and a parse failure alone never fails the write:
every rejection of the full hook is a rejection by the required-field and
array validation of the normalized document. -/
theorem event_date_normalization_best_effort (pd : DateParser)
    (pt : DateTimeParser) (modified : List String) (doc : EventDoc)
    (hmod : modified.contains "date" = true) (hne : doc.date ≠ "") :
    (∀ iso, pd doc.date = some iso →
      (normalizeEventDoc pd pt modified doc).date = formatIsoDate iso) ∧
    (pd doc.date = none →
      (normalizeEventDoc pd pt modified doc).date = doc.date) ∧
    (∀ e, eventPreSave pd pt modified doc = .error e →
      validateEventDoc (normalizeEventDoc pd pt modified doc) = .error e) := by
  have hslugdate : (slugStep modified doc).date = doc.date := by
    unfold slugStep
    split <;> rfl
  have htime : ∀ d : EventDoc, (timeStep pt modified d).date = d.date := by
    intro d
    unfold timeStep
    split <;> rfl
  have hbeq : (((slugStep modified doc).date == "") : Bool) = false := by
    rw [hslugdate]
    simp [hne]
  refine ⟨?_, ?_, fun e he => eventPreSave_error_iff he⟩
  · intro iso hiso
    unfold normalizeEventDoc
    rw [htime]
    unfold dateStep
    rw [hmod, hbeq, hslugdate, hiso]
    rfl
  · intro hnone
    unfold normalizeEventDoc
    rw [htime]
    unfold dateStep
    rw [hmod, hbeq, hslugdate, hnone]
    exact hslugdate

/-- The date block of the Event hook exercised with a parsing and a
non-parsing engine on a concrete document. -/
theorem event_date_normalization_best_effort_witness :
    (normalizeEventDoc (fun _ => some ⟨2026, 3, 7⟩) (fun _ => none) ["date"]
      { title := "T", slug := "t", description := "d", overview := "o",
        image := "i", venue := "v", location := "l", date := "March 7 2026",
        time := "09:00", mode := "m", audience := "a", organizer := "g",
        agenda := ["x"], tags := ["t"] }).date = "2026-03-07" ∧
    (normalizeEventDoc (fun _ => none) (fun _ => none) ["date"]
      { title := "T", slug := "t", description := "d", overview := "o",
        image := "i", venue := "v", location := "l", date := "not a date",
        time := "09:00", mode := "m", audience := "a", organizer := "g",
        agenda := ["x"], tags := ["t"] }).date = "not a date" :=
  ⟨(event_date_normalization_best_effort (fun _ => some ⟨2026, 3, 7⟩)
      (fun _ => none) ["date"] _ rfl (by decide)).1 ⟨2026, 3, 7⟩ rfl,
   (event_date_normalization_best_effort (fun _ => none)
      (fun _ => none) ["date"] _ rfl (by decide)).2.1 rfl⟩

/-- Collapsing a run from its head: a head inside the class contributes one
replacement character for the whole leading run. -/
theorem specCollapseRuns_cons_pos (p : Char → Bool) (r : Char) :
    ∀ (l : List Char) (c : Char), p c = true →
      specCollapseRuns p r (c :: l) =
        r :: specCollapseRuns p r (l.dropWhile p) := by
  intro l
  induction l with
  | nil => intro c hc; simp [specCollapseRuns, hc]
  | cons b t ih =>
    intro c hc
    by_cases hb : p b = true
    · have h1 : specCollapseRuns p r (c :: b :: t) =
          specCollapseRuns p r (b :: t) := by
        rw [specCollapseRuns, hc, hb]
        simp
      rw [h1, List.dropWhile_cons, hb]
      simp only [if_true]
      exact ih b hb
    · have hb' : p b = false := by simpa using hb
      rw [specCollapseRuns, hc, hb']
      simp only [if_true, Bool.false_eq_true, if_false]
      rw [List.dropWhile_cons, hb']
      simp

/-- A head outside the class is kept unchanged. -/
theorem specCollapseRuns_cons_neg (p : Char → Bool) (r : Char)
    (l : List Char) (c : Char) (hc : p c = false) :
    specCollapseRuns p r (c :: l) = c :: specCollapseRuns p r l := by
  cases l with
  | nil => simp [specCollapseRuns, hc]
  | cons b t => rw [specCollapseRuns, hc]; simp

/-- The source's run-collapsing scanner computes the specification's
run-by-run replacement, in both scanner states. -/
theorem collapseRunsAux_eq_spec (p : Char → Bool) (r : Char) :
    ∀ l : List Char,
      collapseRunsAux p r false l = specCollapseRuns p r l ∧
      collapseRunsAux p r true l = specCollapseRuns p r (l.dropWhile p) := by
  intro l
  induction l with
  | nil => exact ⟨rfl, rfl⟩
  | cons c t ih =>
    by_cases hc : p c = true
    · constructor
      · rw [collapseRunsAux, hc]
        simp only [if_true, Bool.false_eq_true, if_false]
        rw [ih.2, specCollapseRuns_cons_pos p r t c hc]
      · rw [collapseRunsAux, hc]
        simp only [if_true]
        rw [ih.2, List.dropWhile_cons, hc]
        simp
    · have hc' : p c = false := by simpa using hc
      constructor
      · rw [collapseRunsAux, hc']
        simp only [Bool.false_eq_true, if_false]
        rw [ih.1, specCollapseRuns_cons_neg p r t c hc']
      · rw [collapseRunsAux, hc']
        simp only [Bool.false_eq_true, if_false]
        rw [ih.1, List.dropWhile_cons, hc']
        simp [specCollapseRuns_cons_neg p r t c hc']

/-- The scanner and the specification's replacement agree. -/
theorem collapseRuns_eq_spec (p : Char → Bool) (r : Char) (l : List Char) :
    collapseRuns p r l = specCollapseRuns p r l :=
  (collapseRunsAux_eq_spec p r l).1

/-- C2: for every title, the derived slug equals the result of the
specification's algorithm — lowercase, trim, strip every character that is
not a lowercase letter, digit, whitespace or hyphen, collapse each
whitespace run into one hyphen, collapse hyphen runs, strip edge hyphens;
in particular "Hello, World!!" derives "hello-world". -/
theorem slugify_follows_spec_algorithm :
    (∀ t : String, slugify t = slugifySpec t) ∧
    slugify "Hello, World!!" = "hello-world" := by
  constructor
  · intro t
    unfold slugify slugifySpec slugifyChars
    simp only [collapseRuns_eq_spec]
  · rfl

/-- Adjacent slug characters are never both hyphens. -/
def NotDD (a b : Char) : Prop := ¬(a = '-' ∧ b = '-')

/-- Every character the run-collapsing scanner emits is the replacement
character or an input character outside the collapsed class. -/
theorem mem_collapseRunsAux {p : Char → Bool} {r : Char} :
    ∀ {l : List Char} {b : Bool} {c : Char},
      c ∈ collapseRunsAux p r b l → c = r ∨ (c ∈ l ∧ p c = false) := by
  intro l
  induction l with
  | nil => intro b c h; simp [collapseRunsAux] at h
  | cons a t ih =>
    intro b c h
    rw [collapseRunsAux] at h
    by_cases ha : p a = true
    · simp only [ha, if_true] at h
      cases b with
      | true =>
        rcases ih h with h1 | h2
        · exact .inl h1
        · exact .inr ⟨List.mem_cons_of_mem a h2.1, h2.2⟩
      | false =>
        rcases List.mem_cons.mp h with h1 | h1
        · exact .inl h1
        · rcases ih h1 with h2 | h3
          · exact .inl h2
          · exact .inr ⟨List.mem_cons_of_mem a h3.1, h3.2⟩
    · have ha' : p a = false := by simpa using ha
      simp only [ha', Bool.false_eq_true, if_false] at h
      rcases List.mem_cons.mp h with h1 | h1
      · exact .inr ⟨by simp [h1], h1 ▸ ha'⟩
      · rcases ih h1 with h2 | h3
        · exact .inl h2
        · exact .inr ⟨List.mem_cons_of_mem a h3.1, h3.2⟩

/-- In the in-run state the dash-collapsing scanner never emits a leading
hyphen. -/
theorem head_collapse_dash_ne :
    ∀ l : List Char, ∀ x ∈ (collapseRunsAux isDash '-' true l).head?, x ≠ '-' := by
  intro l
  induction l with
  | nil => intro x h; simp [collapseRunsAux] at h
  | cons a t ih =>
    intro x h
    rw [collapseRunsAux] at h
    by_cases ha : isDash a = true
    · simp only [ha, if_true] at h
      exact ih x h
    · have ha' : isDash a = false := by simpa using ha
      simp only [ha', Bool.false_eq_true, if_false, List.head?_cons,
        Option.mem_def, Option.some.injEq] at h
      intro hx
      rw [h, hx] at ha'
      simp [isDash] at ha'

/-- The dash-collapsing scanner emits no two adjacent hyphens. -/
theorem chain_collapse_dash :
    ∀ (l : List Char) (b : Bool),
      List.Chain' NotDD (collapseRunsAux isDash '-' b l) := by
  intro l
  induction l with
  | nil => intro b; simp [collapseRunsAux]
  | cons a t ih =>
    intro b
    rw [collapseRunsAux]
    by_cases ha : isDash a = true
    · simp only [ha, if_true]
      cases b with
      | true => exact ih true
      | false =>
        simp only [Bool.false_eq_true, if_false]
        rw [List.chain'_cons']
        refine ⟨?_, ih true⟩
        intro y hy
        have := head_collapse_dash_ne t y hy
        exact fun hc => this hc.2
    · have ha' : isDash a = false := by simpa using ha
      simp only [ha', Bool.false_eq_true, if_false]
      rw [List.chain'_cons']
      refine ⟨?_, ih false⟩
      intro y hy
      intro hc
      rw [hc.1] at ha'
      simp [isDash] at ha'

/-- Characters surviving `rdropWhile` come from the original list. -/
theorem mem_of_mem_rdropWhile {p : Char → Bool} {l : List Char} {c : Char}
    (h : c ∈ l.rdropWhile p) : c ∈ l := by
  rw [List.rdropWhile, List.mem_reverse] at h
  exact List.mem_reverse.mp ((List.dropWhile_sublist p).subset h)

/-- Characters surviving the edge strip come from the original list. -/
theorem mem_of_mem_stripEdge {l : List Char} {c : Char}
    (h : c ∈ stripEdgeChars l) : c ∈ l :=
  (List.dropWhile_sublist isDash).subset (mem_of_mem_rdropWhile h)

/-- A keep-class character that is not whitespace is a slug character. -/
theorem isSlugChar_of_keep_not_ws {c : Char} (hk : isKeepChar c = true)
    (hw : isJsWs c = false) : isSlugChar c = true := by
  unfold isKeepChar at hk
  unfold isSlugChar
  rw [hw] at hk
  simpa using hk

/-- Every character of a derived slug is a lowercase letter, a digit, or a
hyphen. -/
theorem slugifyChars_charset {l : List Char} {c : Char}
    (h : c ∈ slugifyChars l) : isSlugChar c = true := by
  unfold slugifyChars at h
  have h1 := mem_of_mem_stripEdge h
  rcases mem_collapseRunsAux h1 with hd | ⟨h2, hnd⟩
  · rw [hd]; rfl
  · rcases mem_collapseRunsAux h2 with hd | ⟨h3, hnw⟩
    · rw [hd]; rfl
    · exact isSlugChar_of_keep_not_ws (List.of_mem_filter h3) hnw

/-- The head of the list after the leading `dropWhile` fails the
predicate. -/
theorem head?_dropWhile_false (p : Char → Bool) :
    ∀ l : List Char, ∀ x ∈ (l.dropWhile p).head?, p x = false := by
  intro l
  induction l with
  | nil => intro x h; simp at h
  | cons a t ih =>
    intro x h
    rw [List.dropWhile_cons] at h
    by_cases ha : p a = true
    · rw [if_pos ha] at h
      exact ih x h
    · rw [if_neg ha] at h
      simp only [List.head?_cons, Option.mem_def, Option.some.injEq] at h
      rw [← h]
      simpa using ha

/-- The head survives `rdropWhile` whenever anything does. -/
theorem head?_rdropWhile {p : Char → Bool} {l : List Char} {x : Char}
    (h : x ∈ (l.rdropWhile p).head?) : x ∈ l.head? := by
  have hp := List.rdropWhile_prefix p l
  obtain ⟨t, ht⟩ := hp
  cases hr : l.rdropWhile p with
  | nil => rw [hr] at h; simp at h
  | cons a u =>
    rw [hr] at h ht
    simp only [List.head?_cons, Option.mem_def, Option.some.injEq] at h
    rw [← ht, ← h]
    rfl

/-- A derived slug does not start with a hyphen. -/
theorem slugifyChars_head {l : List Char} {x : Char}
    (h : x ∈ (slugifyChars l).head?) : x ≠ '-' := by
  unfold slugifyChars stripEdgeChars at h
  have h1 := head?_rdropWhile h
  have h2 := head?_dropWhile_false isDash _ x h1
  intro hx
  rw [hx] at h2
  simp [isDash] at h2

/-- The last element surviving `rdropWhile` fails the predicate. -/
theorem getLast?_rdropWhile_false {p : Char → Bool} {l : List Char}
    {x : Char} (h : x ∈ (l.rdropWhile p).getLast?) : p x = false := by
  by_cases hn : l.rdropWhile p = []
  · rw [hn] at h; simp at h
  · rw [List.getLast?_eq_getLast _ hn] at h
    simp only [Option.mem_def, Option.some.injEq] at h
    have hlast := List.rdropWhile_last_not p l hn
    rw [h] at hlast
    simpa using hlast

/-- A derived slug does not end with a hyphen. -/
theorem slugifyChars_last {l : List Char} {x : Char}
    (h : x ∈ (slugifyChars l).getLast?) : x ≠ '-' := by
  unfold slugifyChars stripEdgeChars at h
  have hlast := getLast?_rdropWhile_false h
  intro hx
  rw [hx] at hlast
  simp [isDash] at hlast

/-- A derived slug has no two adjacent hyphens. -/
theorem slugifyChars_chain (l : List Char) :
    List.Chain' NotDD (slugifyChars l) := by
  unfold slugifyChars stripEdgeChars
  have h1 : List.Chain' NotDD (collapseRuns isDash '-'
      (collapseRuns isJsWs '-'
        ((jsTrimChars (l.map Char.toLower)).filter isKeepChar))) :=
    chain_collapse_dash _ false
  have h2 := List.Chain'.suffix h1 (List.dropWhile_suffix isDash)
  exact List.Chain'.prefix h2 (List.rdropWhile_prefix isDash _)

/-- A slug character is not whitespace. -/
theorem not_ws_of_slug {c : Char} (h : isSlugChar c = true) :
    isJsWs c = false := by
  unfold isSlugChar at h
  simp only [Bool.or_eq_true, Bool.and_eq_true, decide_eq_true_eq,
    beq_iff_eq] at h
  apply Bool.eq_false_iff.mpr
  intro hw
  simp only [isJsWs, Bool.or_eq_true, Bool.and_eq_true, beq_iff_eq,
    decide_eq_true_eq] at hw
  omega

/-- A slug character is in the keep class. -/
theorem keep_of_slug {c : Char} (h : isSlugChar c = true) :
    isKeepChar c = true := by
  unfold isSlugChar at h
  simp only [isKeepChar, Bool.or_eq_true, Bool.and_eq_true,
    decide_eq_true_eq, beq_iff_eq] at h ⊢
  rcases h with (h | h) | h
  · exact .inl (.inl (.inl h))
  · exact .inl (.inl (.inr h))
  · exact .inr h

/-- Lowercasing is the identity on slug characters. -/
theorem toLower_id_of_slug {c : Char} (h : isSlugChar c = true) :
    c.toLower = c := by
  unfold isSlugChar at h
  simp only [Bool.or_eq_true, Bool.and_eq_true, decide_eq_true_eq,
    beq_iff_eq] at h
  unfold Char.toLower
  rw [if_neg (by omega)]

/-- Mapping a pointwise-identity function over a list is the identity. -/
theorem map_id_of_mem {f : Char → Char} :
    ∀ {l : List Char}, (∀ c ∈ l, f c = c) → l.map f = l := by
  intro l
  induction l with
  | nil => intro h; rfl
  | cons a t ih =>
    intro h
    rw [List.map_cons, h a (by simp), ih fun c hc => h c (.tail a hc)]

/-- Trimming is the identity on a whitespace-free list. -/
theorem jsTrimChars_id {l : List Char}
    (h : ∀ c ∈ l, isJsWs c = false) : jsTrimChars l = l := by
  unfold jsTrimChars
  have h1 : l.dropWhile isJsWs = l := by
    cases l with
    | nil => rfl
    | cons a t =>
      rw [List.dropWhile_cons, if_neg]
      simp [h a (by simp)]
  rw [h1, List.rdropWhile_eq_self_iff.mpr]
  intro hl
  simp [h _ (List.getLast_mem hl)]

/-- The run-collapsing scanner is the identity when no character is in the
collapsed class. -/
theorem collapseRunsAux_id {p : Char → Bool} {r : Char} :
    ∀ {l : List Char}, (∀ c ∈ l, p c = false) →
      collapseRunsAux p r false l = l := by
  intro l
  induction l with
  | nil => intro h; rfl
  | cons a t ih =>
    intro h
    rw [collapseRunsAux, h a (by simp)]
    simp only [Bool.false_eq_true, if_false]
    rw [ih fun c hc => h c (.tail a hc)]

/-- The dash-collapsing scanner is the identity on a list with no two
adjacent hyphens (starting outside a run, or inside one when the head is
not a hyphen). -/
theorem collapse_dash_id :
    ∀ (l : List Char) (b : Bool), List.Chain' NotDD l →
      (b = true → ∀ x ∈ l.head?, x ≠ '-') →
      collapseRunsAux isDash '-' b l = l := by
  intro l
  induction l with
  | nil => intro b _ _; cases b <;> rfl
  | cons a t ih =>
    intro b hch hhead
    have hsplit := List.chain'_cons'.mp hch
    by_cases ha : isDash a = true
    · have ha' : a = '-' := by simpa [isDash] using ha
      cases b with
      | true =>
        exact absurd ha' (hhead rfl a (by simp))
      | false =>
        rw [collapseRunsAux, ha]
        simp only [if_true, Bool.false_eq_true, if_false]
        rw [ih true hsplit.2]
        · rw [ha']
        · intro _ y hy hy'
          exact hsplit.1 y hy ⟨ha', hy'⟩
    · have ha' : isDash a = false := by simpa using ha
      rw [collapseRunsAux, ha']
      simp only [Bool.false_eq_true, if_false]
      rw [ih false hsplit.2 (by intro h; cases h)]

/-- Edge stripping is the identity when neither edge is a hyphen. -/
theorem stripEdgeChars_id {l : List Char}
    (hh : ∀ x ∈ l.head?, x ≠ '-') (hl : ∀ x ∈ l.getLast?, x ≠ '-') :
    stripEdgeChars l = l := by
  unfold stripEdgeChars
  have h1 : l.dropWhile isDash = l := by
    cases l with
    | nil => rfl
    | cons a t =>
      rw [List.dropWhile_cons, if_neg]
      have := hh a (by simp)
      simp [isDash, this]
  rw [h1, List.rdropWhile_eq_self_iff.mpr]
  intro hne
  have := hl (l.getLast hne) (by rw [List.getLast?_eq_getLast _ hne]; rfl)
  simp [isDash, this]

/-- The whole slug pipeline is the identity on a list that already has the
derived-slug shape. -/
theorem slugifyChars_id {l : List Char}
    (hset : ∀ c ∈ l, isSlugChar c = true) (hch : List.Chain' NotDD l)
    (hh : ∀ x ∈ l.head?, x ≠ '-') (hl : ∀ x ∈ l.getLast?, x ≠ '-') :
    slugifyChars l = l := by
  unfold slugifyChars collapseRuns
  rw [map_id_of_mem fun c hc => toLower_id_of_slug (hset c hc),
      jsTrimChars_id fun c hc => not_ws_of_slug (hset c hc),
      List.filter_eq_self.mpr fun c hc => keep_of_slug (hset c hc),
      collapseRunsAux_id fun c hc => not_ws_of_slug (hset c hc),
      collapse_dash_id l false hch (by intro h; cases h)]
  exact stripEdgeChars_id hh hl

/-- C8: slug derivation is idempotent, and every derived slug contains only
lowercase letters, digits and hyphens, with no two adjacent hyphens and no
leading or trailing hyphen. -/
theorem slugify_idempotent_and_charset (s : String) :
    slugify (slugify s) = slugify s ∧
    (∀ c ∈ (slugify s).data, isSlugChar c = true) ∧
    List.Chain' NotDD (slugify s).data ∧
    (∀ x ∈ (slugify s).data.head?, x ≠ '-') ∧
    (∀ x ∈ (slugify s).data.getLast?, x ≠ '-') := by
  refine ⟨?_, fun c hc => slugifyChars_charset hc, slugifyChars_chain _,
    fun x hx => slugifyChars_head hx, fun x hx => slugifyChars_last hx⟩
  show (⟨slugifyChars (slugifyChars s.data)⟩ : String) = ⟨slugifyChars s.data⟩
  rw [slugifyChars_id (fun c hc => slugifyChars_charset hc)
    (slugifyChars_chain _) (fun x hx => slugifyChars_head hx)
    (fun x hx => slugifyChars_last hx)]

/-- An in-range hour/minute pair renders as canonical zero-padded
`HH:MM`. -/
theorem canonical_timeRender : ∀ h : Nat, h < 24 → ∀ m : Nat, m < 60 →
    isCanonicalHHMM (timeRender h m) = true := by decide

/-- The am/pm hour rule keeps the hour below 24 whenever the captured hour
is at most 12. -/
theorem amPmHour_lt {h0 : Nat} (h : h0 ≤ 12) (pm : Bool) :
    amPmHour h0 pm < 24 := by
  unfold amPmHour
  split
  · split <;> omega
  · split <;> omega

/-- The am/pm stage renders canonically when the am/pm capture is in the
12-hour range, and the fallback stage always renders canonically. -/
theorem normalizeTimeAmPm_canonical (parse : DateTimeParser) (v : String)
    (hacc2 :
      (∃ h m pm, matchAmPm v.data = some (h, m, pm) ∧ h ≤ 12 ∧ m ≤ 59) ∨
      (matchAmPm v.data = none ∧ ∃ t, parse v = some t)) :
    isCanonicalHHMM (normalizeTimeAmPm parse v) = true := by
  unfold normalizeTimeAmPm
  cases hma : matchAmPm v.data with
  | some p =>
    obtain ⟨h0, m, pm⟩ := p
    rcases hacc2 with ⟨h', m', pm', hma', hh, hmm⟩ | ⟨hnone, -⟩
    · rw [hma] at hma'
      obtain ⟨rfl, rfl, rfl⟩ : h0 = h' ∧ m = m' ∧ pm = pm' := by
        injection hma' with he
        exact ⟨congrArg Prod.fst he, congrArg Prod.fst (congrArg Prod.snd he),
          congrArg Prod.snd (congrArg Prod.snd he)⟩
      exact canonical_timeRender _ (amPmHour_lt hh pm) m (by omega)
    · rw [hnone] at hma
      cases hma
  | none =>
    rcases hacc2 with ⟨h', m', pm', hma', -, -⟩ | ⟨-, t, hp⟩
    · rw [hma'] at hma
      cases hma
    · unfold normalizeTimeFallback
      rw [hp]
      obtain ⟨hh, mm⟩ := t
      exact canonical_timeRender _ hh.isLt _ mm.isLt

/-- C3 as stated fails on the code: "13:00pm" is accepted by the am/pm
grammar, yet normalization renders it "25:00", which is not a canonical
24-hour time — the am/pm branch applies no range check to its captures. -/
theorem normalizeTime_canonical_counterexample :
    acceptsTimeGrammar (fun _ => none) "13:00pm" ∧
    normalizeTimeStr (fun _ => none) "13:00pm" = "25:00" ∧
    isCanonicalHHMM (normalizeTimeStr (fun _ => none) "13:00pm") = false :=
  ⟨.inr (.inl ⟨(13, 0, true), rfl⟩), rfl, rfl⟩

/-- C3 amended: normalization returns a zero-padded canonical `HH:MM`
(hour in [0,23], minute in [0,59]) for every non-empty input accepted by
the strict in-range 24-hour grammar, by the am/pm grammar with captured
hour at most 12 and captured minute at most 59, or — when the am/pm
pattern does not match — by the date-time fallback. -/
theorem normalizeTime_canonical_amended (parse : DateTimeParser)
    (value : String) (hne : value ≠ "")
    (hacc :
      (∃ h m, matchHHMM (jsTrim value).data = some (h, m) ∧
        h < 24 ∧ m < 60) ∨
      (∃ h m pm, matchAmPm (jsTrim value).data = some (h, m, pm) ∧
        h ≤ 12 ∧ m ≤ 59) ∨
      (matchAmPm (jsTrim value).data = none ∧
        ∃ t, parse (jsTrim value) = some t)) :
    isCanonicalHHMM (normalizeTimeStr parse value) = true := by
  unfold normalizeTimeStr
  rw [if_neg hne]
  unfold normalizeTimeCore
  cases hm : matchHHMM (jsTrim value).data with
  | some p =>
    obtain ⟨h, m⟩ := p
    show isCanonicalHHMM (if h < 24 && m < 60 then timeRender h m
      else normalizeTimeAmPm parse (jsTrim value)) = true
    by_cases hr : (h < 24 && m < 60) = true
    · rw [hr]
      simp only [if_true]
      simp only [Bool.and_eq_true, decide_eq_true_eq] at hr
      exact canonical_timeRender h hr.1 m hr.2
    · have hr' : ((h < 24 : Bool) && m < 60) = false := by simpa using hr
      rw [hr']
      simp only [Bool.false_eq_true, if_false]
      apply normalizeTimeAmPm_canonical
      rcases hacc with ⟨h', m', hm', hh', hmm'⟩ | h2 | h3
      · rw [hm'] at hm
        exfalso
        apply hr
        obtain ⟨rfl, rfl⟩ : h' = h ∧ m' = m := by
          injection hm with he
          exact ⟨congrArg Prod.fst he, congrArg Prod.snd he⟩
        simp [hh', hmm']
      · exact .inl h2
      · exact .inr h3
  | none =>
    apply normalizeTimeAmPm_canonical
    rcases hacc with ⟨h', m', hm', -, -⟩ | h2 | h3
    · rw [hm'] at hm
      cases hm
    · exact .inl h2
    · exact .inr h3

/-- The amended C3 exercised on concrete inputs from each accepted
grammar. -/
theorem normalizeTime_canonical_amended_witness :
    isCanonicalHHMM (normalizeTimeStr (fun _ => none) "7:30 pm") = true ∧
    isCanonicalHHMM (normalizeTimeStr (fun _ => none) "23:59") = true ∧
    isCanonicalHHMM
      (normalizeTimeStr (fun _ => some (⟨14, by omega⟩, ⟨5, by omega⟩))
        "June 1 2026 2:05 PM GMT") = true :=
  ⟨normalizeTime_canonical_amended (fun _ => none) "7:30 pm" (by decide)
    (.inr (.inl ⟨7, 30, true, rfl, by omega, by omega⟩)),
   normalizeTime_canonical_amended (fun _ => none) "23:59" (by decide)
    (.inl ⟨23, 59, rfl, by omega, by omega⟩),
   normalizeTime_canonical_amended
    (fun _ => some (⟨14, by omega⟩, ⟨5, by omega⟩))
    "June 1 2026 2:05 PM GMT" (by decide)
    (.inr (.inr ⟨rfl, (⟨14, by omega⟩, ⟨5, by omega⟩), rfl⟩))⟩

/-- Every accepted email splits at some `@` into a valid local-part and a
valid domain (stated over the scanner with its accumulator). -/
theorem emailTestAux_split :
    ∀ (rest acc : List Char), emailTestAux acc rest = true →
      ∃ l d, acc.reverse ++ rest = l ++ '@' :: d ∧
        localOk l = true ∧ domainOk d = true := by
  intro rest
  induction rest with
  | nil => intro acc h; simp [emailTestAux] at h
  | cons c t ih =>
    intro acc h
    rw [emailTestAux] at h
    rcases Bool.or_eq_true _ _ |>.mp h with h1 | h1
    · simp only [Bool.and_eq_true, beq_iff_eq] at h1
      obtain ⟨⟨rfl, hl⟩, hd⟩ := h1
      exact ⟨acc.reverse, t, rfl, hl, hd⟩
    · obtain ⟨l, d, heq, hl, hd⟩ := ih (c :: acc) h1
      refine ⟨l, d, ?_, hl, hd⟩
      rw [List.reverse_cons, List.append_assoc] at heq
      simpa using heq

/-- A list splitting into two or more dot-separated segments contains a
dot. -/
theorem mem_of_splitOnChar_two {sep : Char} :
    ∀ l : List Char, 2 ≤ (splitOnChar sep l).length → sep ∈ l := by
  intro l
  induction l with
  | nil => intro h; simp [splitOnChar] at h
  | cons c t ih =>
    intro h
    rw [splitOnChar] at h
    cases hs : splitOnChar sep t with
    | nil => rw [hs] at h; simp at h
    | cons s ss =>
      rw [hs] at h
      by_cases hc : (c == sep) = true
      · have : c = sep := by simpa using hc
        rw [this]
        exact List.mem_cons_self sep t
      · have hc' : (c == sep) = false := by simpa using hc
        rw [hc'] at h
        simp only [Bool.false_eq_true, if_false, List.length_cons] at h
        apply List.mem_cons_of_mem
        apply ih
        rw [hs]
        simpa using h

/-- C7: the Booking email is checked against the grammar — a quoted or
unquoted local-part, an `@`, and a domain with at least one dot and a
top-level segment of two or more characters; a mismatch fails with a
message naming the offending value, and an accepted email is stored as the
trimmed lowercased form of the input, e.g. " USER@Example.COM " as
"user@example.com". -/
theorem booking_email_validation (raw : String) :
    (emailRegexTest (bookingStoreEmail raw) = true →
      validateBookingEmail raw = .ok (jsLower (jsTrim raw))) ∧
    (emailRegexTest (bookingStoreEmail raw) = false →
      validateBookingEmail raw =
        .error (bookingStoreEmail raw ++ " is not a valid email")) ∧
    (∀ s : String, emailRegexTest s = true →
      ∃ l d, s.data = l ++ '@' :: d ∧
        (quotedLocalOk l = true ∨ unquotedLocalOk l = true) ∧
        domainOk d = true ∧ '.' ∈ d ∧
        2 ≤ ((splitOnChar '.' d).getLastD []).length) ∧
    validateBookingEmail " USER@Example.COM " = .ok "user@example.com" := by
  refine ⟨?_, ?_, ?_, rfl⟩
  · intro h
    unfold validateBookingEmail
    rw [h]
    rfl
  · intro h
    unfold validateBookingEmail
    rw [h]
    rfl
  · intro s h
    obtain ⟨l, d, heq, hl, hd⟩ := emailTestAux_split s.data [] h
    simp only [List.reverse_nil, List.nil_append] at heq
    refine ⟨l, d, heq, ?_, hd, ?_, ?_⟩
    · unfold localOk at hl
      rcases Bool.or_eq_true _ _ |>.mp hl with h1 | h1
      · exact .inl h1
      · exact .inr h1
    · unfold domainOk at hd
      simp only [Bool.and_eq_true, decide_eq_true_eq] at hd
      exact mem_of_splitOnChar_two d hd.1.1
    · unfold domainOk at hd
      simp only [Bool.and_eq_true, decide_eq_true_eq] at hd
      exact hd.2.1

/-- The email path exercised on concrete inputs: normalization of a padded
mixed-case address, rejection of a malformed one with the value-naming
message, and the grammar decomposition of an accepted address. -/
theorem booking_email_validation_witness :
    validateBookingEmail " USER@Example.COM " = .ok "user@example.com" ∧
    validateBookingEmail "not-an-email" =
      .error "not-an-email is not a valid email" ∧
    (∃ l d, ("user@example.com" : String).data = l ++ '@' :: d ∧
      (quotedLocalOk l = true ∨ unquotedLocalOk l = true) ∧
      domainOk d = true ∧ '.' ∈ d ∧
      2 ≤ ((splitOnChar '.' d).getLastD []).length) :=
  ⟨(booking_email_validation " USER@Example.COM ").1 rfl,
   (booking_email_validation "not-an-email").2.1 rfl,
   (booking_email_validation "user@example.com").2.2.1
     "user@example.com" rfl⟩

end DevEvents
